import Mathlib

/-!
Verification development for the `A2022_SMCLT_in_GOTM` notebooks.

The repository consists of three notebooks under `Entrainment/`:
`run_Entrainment.ipynb`, `run_Entrainment-KC04.ipynb` (which build GOTM
configuration dictionaries, append deep copies of them to a batch list
and invoke `m.run_batch`) and `plot_Entrainment-KC04-MY.ipynb` (which
loads the outputs and compares the diagnosed mixed layer depth with the
Price (1979) scaling).  The numeric parts of the notebooks are embedded
over the reals, the dictionary/list manipulation over explicit state,
and the object-graph aliasing behaviour of `copy.deepcopy` over an
explicit heap of dictionary objects.
-/

/-! ### Price (1979) mixed layer depth prediction

Embedding of the cell of `plot_Entrainment-KC04-MY.ipynb`:

  N0 = np.sqrt(data0.NN[2,-1,0,0].values)
  ustar = data0.u_taus[-1,0,0].values
  sec = ((data0.time - data0.time[0])/np.timedelta64(1, 's')).values
  mld_val = np.sqrt(np.sqrt(2.*0.6))*ustar*np.sqrt(sec/N0)

NumPy float64 arithmetic is modelled over `ℝ`; `NNval` stands for the
scalar `NN[2,-1,0,0]` read from the first case's dataset and `ustar`
for `u_taus[-1,0,0]`.  The array operation is elementwise over `sec`. -/

/-- Pointwise value of the predicted mixed layer depth as the notebook
computes it: `sqrt(sqrt(2*0.6)) * ustar * sqrt(t / N0)`. -/
noncomputable def mldVal (ustar N0 t : ℝ) : ℝ :=
  Real.sqrt (Real.sqrt (2 * 0.6)) * ustar * Real.sqrt (t / N0)

/-- The array `mld_val` of the notebook: `mldVal` mapped over the time
offsets `sec`, with `N0 = sqrt NNval` as read from the dataset. -/
noncomputable def mld_p79 (NNval ustar : ℝ) (sec : List ℝ) : List ℝ :=
  sec.map (fun t => mldVal ustar (Real.sqrt NNval) t)

/-- The Price (1979) scaling law exactly as the spec words it:
`(2*0.6)^(1/4) * ustar * sqrt(t / N0)`. -/
noncomputable def priceScaling (ustar N0 t : ℝ) : ℝ :=
  (2 * 0.6) ^ ((1 : ℝ) / 4) * ustar * Real.sqrt (t / N0)

lemma sqrt_sqrt_eq_rpow_quarter {x : ℝ} (hx : 0 ≤ x) :
    Real.sqrt (Real.sqrt x) = x ^ ((1 : ℝ) / 4) := by
  rw [Real.sqrt_eq_rpow, Real.sqrt_eq_rpow, ← Real.rpow_mul hx]
  norm_num

lemma mldVal_eq_priceScaling (ustar N0 t : ℝ) :
    mldVal ustar N0 t = priceScaling ustar N0 t := by
  unfold mldVal priceScaling
  rw [sqrt_sqrt_eq_rpow_quarter (by norm_num)]

/-- C1: the predicted mixed layer depth curve computed by the plot
notebook equals the Price (1979) scaling law: every entry of `mld_p79`
at time offset `t` is `(2*0.6)^(1/4) * ustar * sqrt(t / N0)` with
`N0 = sqrt NNval`; in particular `sqrt(sqrt(2*0.6)) = (2*0.6)^(1/4)`. -/
theorem price_mld_matches_spec :
    (∀ (NNval ustar : ℝ) (sec : List ℝ),
      mld_p79 NNval ustar sec
        = sec.map (fun t => priceScaling ustar (Real.sqrt NNval) t)) ∧
    Real.sqrt (Real.sqrt (2 * 0.6)) = (2 * 0.6) ^ ((1 : ℝ) / 4) := by
  constructor
  · intro NNval ustar sec
    unfold mld_p79
    exact List.map_congr_left (fun t _ => mldVal_eq_priceScaling ustar (Real.sqrt NNval) t)
  · exact sqrt_sqrt_eq_rpow_quarter (by norm_num)

/-- C10: the predicted mixed layer depth is nonnegative, vanishes at
time offset zero (the first output time), and is nondecreasing in the
time offset, for any `ustar ≥ 0` and `N0 > 0`. -/
theorem mld_nonneg_monotone (ustar N0 : ℝ) (hu : 0 ≤ ustar) (hN : 0 < N0) :
    (∀ t : ℝ, 0 ≤ mldVal ustar N0 t) ∧
    mldVal ustar N0 0 = 0 ∧
    (∀ s t : ℝ, 0 ≤ s → s ≤ t → mldVal ustar N0 s ≤ mldVal ustar N0 t) := by
  have hc : 0 ≤ Real.sqrt (Real.sqrt (2 * 0.6)) * ustar :=
    mul_nonneg (Real.sqrt_nonneg _) hu
  refine ⟨fun t => ?_, ?_, fun s t hs hst => ?_⟩
  · exact mul_nonneg hc (Real.sqrt_nonneg _)
  · unfold mldVal
    rw [zero_div, Real.sqrt_zero, mul_zero]
  · unfold mldVal
    have hdiv : s / N0 ≤ t / N0 := by gcongr
    exact mul_le_mul_of_nonneg_left (Real.sqrt_le_sqrt hdiv) hc

/-- Witness for C10 at `ustar = 1`, `N0 = 1`. -/
theorem mld_nonneg_monotone_witness :
    (0 : ℝ) ≤ 1 ∧ (0 : ℝ) < 1 ∧
    ((∀ t : ℝ, 0 ≤ mldVal 1 1 t) ∧
     mldVal 1 1 0 = 0 ∧
     (∀ s t : ℝ, 0 ≤ s → s ≤ t → mldVal 1 1 s ≤ mldVal 1 1 t)) :=
  ⟨by norm_num, by norm_num, mld_nonneg_monotone 1 1 (by norm_num) (by norm_num)⟩

/-! ### Batch labels

Embedding of the label construction of the run notebooks.  The Python
floats in `e6list = [1.0, 4.0, 6.0, 7.0]` and
`c4list = [0.15, 0.3, 0.555, 1.2]` are exactly representable decimals;
they are modelled by their value in tenths resp. thousandths, and the
format specifiers `{:.1f}` and `{:.3f}` by decimal rendering with one
resp. three digits after the point. -/

/-- Rendering of `'{:.1f}'.format` on a value given in tenths. -/
def fmtFixed1 (tenths : Nat) : String :=
  toString (tenths / 10) ++ "." ++ toString (tenths % 10)

/-- Zero-padding of a fractional part to three digits. -/
def pad3 (n : Nat) : String :=
  (if n < 10 then "00" else if n < 100 then "0" else "") ++ toString n

/-- Rendering of `'{:.3f}'.format` on a value given in thousandths. -/
def fmtFixed3 (th : Nat) : String :=
  toString (th / 1000) ++ "." ++ pad3 (th % 1000)

/-- The list `e6list = [1.0, 4.0, 6.0, 7.0]` of `run_Entrainment-KC04.ipynb`,
in tenths. -/
def e6listTenths : List Nat := [10, 40, 60, 70]

/-- The list `c4list = [0.15, 0.3, 0.555, 1.2]` of `run_Entrainment-KC04.ipynb`,
in thousandths. -/
def c4listThousandths : List Nat := [150, 300, 555, 1200]

/-- The four labels appended by `run_Entrainment.ipynb`. -/
def runEntrainmentLabels : List String :=
  ["GLS-C01A", "KPP-CVMix", "KPPLT-VR12", "KPPLT-LF17"]

/-- The ten labels appended by `run_Entrainment-KC04.ipynb`, in append
order: the `KC04-MY-e6-{:.1f}` family, the `KC04-k-omega-c4-{:.3f}`
family, then the two no-Stokes variants. -/
def kc04Labels : List String :=
  (e6listTenths.map (fun v => "KC04-MY-e6-" ++ fmtFixed1 v))
  ++ (c4listThousandths.map (fun v => "KC04-k-omega-c4-" ++ fmtFixed3 v))
  ++ ["KC04-MY-NS", "KC04-k-omega-NS"]

/-- C2: the labels passed to `run_batch` are pairwise distinct in both
run notebooks, and the two format strings are injective on their value
lists. -/
theorem run_labels_distinct :
    runEntrainmentLabels.Nodup ∧ kc04Labels.Nodup ∧
    (e6listTenths.map fmtFixed1).Nodup ∧
    (c4listThousandths.map fmtFixed3).Nodup := by
  refine ⟨?_, ?_, ?_, ?_⟩ <;> decide

/-! ### Plot notebook dictionaries

Embedding of cells 2 and 4 of `plot_Entrainment-KC04-MY.ipynb`.
Python dictionaries with string keys are modelled as association lists
with first-match lookup and in-place update; `dictSet` is `d[k] = v`
(update an existing key in place, else append).  The colormap values
`cmap(ifrac[i])` and the color literals are opaque, so the color type
is a parameter. -/

/-- Python `d[k] = v` on an association list. -/
def dictSet {α : Type} : List (String × α) → String → α → List (String × α)
  | [], k, v => [(k, v)]
  | (k', v') :: rest, k, v =>
    if k = k' then (k, v) :: rest else (k', v') :: dictSet rest k v

/-- Python `d[k]` on an association list (`none` models `KeyError`). -/
def dictGet {α : Type} : List (String × α) → String → Option α
  | [], _ => none
  | (k', v) :: rest, k => if k = k' then some v else dictGet rest k

/-- Key list of an association list, in insertion order. -/
def dictKeys {α : Type} (d : List (String × α)) : List String :=
  d.map Prod.fst

/-- State of cell 2 of the plot notebook: the case name list and the
three lookup dictionaries keyed by case name. -/
structure PlotState (C : Type) where
  casenames : List String
  labels : List (String × String)
  colors : List (String × C)
  markers : List (String × String)

/-- The value `nkpp = len(casenames)` taken before the loop. -/
def nkpp : Nat := 2

/-- The initial dictionaries of cell 2. -/
def plotInit (C : Type) (kcol graycol : C) : PlotState C :=
  { casenames := ["KPP-CVMix", "KPPLT-LF17"],
    labels := [("KPP-CVMix", "KPP-CVMix"), ("KPPLT-LF17", "KPPLT-LF17")],
    colors := [("KPP-CVMix", kcol), ("KPPLT-LF17", graycol)],
    markers := [("KPP-CVMix", "x"), ("KPPLT-LF17", "x")] }

/-- One iteration of `for i, e6 in enumerate(e6list)`: append the case
name, then set `labels/colors/markers` at key `casenames[i+nkpp]`. -/
def plotStep {C : Type} (cmapf : Nat → C) (st : PlotState C) (iv : Nat × Nat) :
    PlotState C :=
  let cs := st.casenames ++ ["KC04-MY-e6-" ++ fmtFixed1 iv.2]
  let key := cs.getD (iv.1 + nkpp) ""
  { casenames := cs,
    labels := dictSet st.labels key ("$e_6$=" ++ fmtFixed1 iv.2),
    colors := dictSet st.colors key (cmapf iv.1),
    markers := dictSet st.markers key "o" }

/-- The trailing block of cell 2: append `'KC04-MY-NS'` and set the
dictionaries at key `casenames[-1]`. -/
def plotAppendNS {C : Type} (kcol : C) (st : PlotState C) : PlotState C :=
  let cs := st.casenames ++ ["KC04-MY-NS"]
  let key := cs.getLastD ""
  { casenames := cs,
    labels := dictSet st.labels key "w/o Stokes",
    colors := dictSet st.colors key kcol,
    markers := dictSet st.markers key "o" }

/-- Cell 2 of the plot notebook, as a whole. -/
def plotCell2 (C : Type) (cmapf : Nat → C) (kcol graycol : C) : PlotState C :=
  plotAppendNS kcol (e6listTenths.enum.foldl (plotStep cmapf) (plotInit C kcol graycol))

/-- The case name list produced by cell 2 (it does not depend on the
color values). -/
def plotCasenames : List String :=
  (plotCell2 PUnit (fun _ => PUnit.unit) PUnit.unit PUnit.unit).casenames

/-- C9: the key sets of the `labels`, `colors` and `markers`
dictionaries each equal the case name list, so the lookups
`labels[case]`, `colors[case]`, `markers[case]` in the figure loop
succeed for every `case` in `casenames`. -/
theorem plot_dict_lookups_total (C : Type) (cmapf : Nat → C) (kcol graycol : C) :
    ((plotCell2 C cmapf kcol graycol).casenames = plotCasenames ∧
     dictKeys (plotCell2 C cmapf kcol graycol).labels = plotCasenames ∧
     dictKeys (plotCell2 C cmapf kcol graycol).colors = plotCasenames ∧
     dictKeys (plotCell2 C cmapf kcol graycol).markers = plotCasenames) ∧
    ∀ c ∈ (plotCell2 C cmapf kcol graycol).casenames,
      (dictGet (plotCell2 C cmapf kcol graycol).labels c).isSome = true ∧
      (dictGet (plotCell2 C cmapf kcol graycol).colors c).isSome = true ∧
      (dictGet (plotCell2 C cmapf kcol graycol).markers c).isSome = true := by
  refine ⟨⟨rfl, rfl, rfl, rfl⟩, ?_⟩
  intro c hc
  have hc2 : c ∈ ["KPP-CVMix", "KPPLT-LF17", "KC04-MY-e6-1.0", "KC04-MY-e6-4.0",
      "KC04-MY-e6-6.0", "KC04-MY-e6-7.0", "KC04-MY-NS"] := hc
  fin_cases hc2 <;> exact ⟨rfl, rfl, rfl⟩

/-- Witness for C9 at a concrete color type and case name. -/
theorem plot_dict_lookups_total_witness :
    "KC04-MY-NS" ∈ (plotCell2 Nat (fun _ => 0) 1 2).casenames ∧
    ((dictGet (plotCell2 Nat (fun _ => 0) 1 2).labels "KC04-MY-NS").isSome = true ∧
     (dictGet (plotCell2 Nat (fun _ => 0) 1 2).colors "KC04-MY-NS").isSome = true ∧
     (dictGet (plotCell2 Nat (fun _ => 0) 1 2).markers "KC04-MY-NS").isSome = true) :=
  ⟨by decide,
   (plot_dict_lookups_total Nat (fun _ => 0) 1 2).2 "KC04-MY-NS" (by decide)⟩

/-- The directory `casedir = '../gotm/run/Entrainment-KC04'`. -/
def kc04CaseDir : String := "../gotm/run/Entrainment-KC04"

/-- Cell 4 of the plot notebook: `dataset[case] = Simulation(path=casedir
+'/'+case).load_data()` for each case, starting from the empty dict.
The composite `Simulation(path=p).load_data()` is the abstract function
`loadData` of the path. -/
def buildDataset {D : Type} (loadData : String → D) (cs : List String) :
    List (String × D) :=
  cs.foldl (fun d c => dictSet d c (loadData (kc04CaseDir ++ "/" ++ c))) []

/-- C8: after the load loop, the key set of `dataset` is exactly
`casenames`, and each case maps to the dataset loaded from the run
directory named by that case. -/
theorem dataset_load_map (D : Type) (loadData : String → D) :
    dictKeys (buildDataset loadData plotCasenames) = plotCasenames ∧
    ∀ c ∈ plotCasenames,
      dictGet (buildDataset loadData plotCasenames) c
        = some (loadData (kc04CaseDir ++ "/" ++ c)) := by
  refine ⟨rfl, ?_⟩
  intro c hc
  have hc2 : c ∈ ["KPP-CVMix", "KPPLT-LF17", "KC04-MY-e6-1.0", "KC04-MY-e6-4.0",
      "KC04-MY-e6-6.0", "KC04-MY-e6-7.0", "KC04-MY-NS"] := hc
  fin_cases hc2 <;> rfl

/-- Witness for C8 with the identity load function. -/
theorem dataset_load_map_witness :
    "KPP-CVMix" ∈ plotCasenames ∧
    dictGet (buildDataset (fun p => p) plotCasenames) "KPP-CVMix"
      = some (kc04CaseDir ++ "/" ++ "KPP-CVMix") :=
  ⟨by decide, (dataset_load_map String (fun p => p)).2 "KPP-CVMix" (by decide)⟩

/-! ### Exception propagation in the notebook code

A control-flow view of the notebooks: each top-level source statement is
either a plain assignment (no external collaborator involved), a call
into an external collaborator that may raise, or a `try/except` block.
Calls may raise according to an oracle; without a handler a raised
error propagates to the caller unchanged.  The notebooks' loops over
concrete lists are unrolled. -/

/-- A notebook statement, coarsely. -/
inductive PStmt where
  | assign
  | extCall (f : String)
  | tryExcept (body handler : List PStmt)

/-- Whether a statement list contains a `try/except` handler. -/
def hasHandler : List PStmt → Bool
  | [] => false
  | PStmt.tryExcept _ _ :: _ => true
  | _ :: rest => hasHandler rest

/-- Names of the external calls of a statement list, in order. -/
def callNames : List PStmt → List String
  | [] => []
  | PStmt.assign :: rest => callNames rest
  | PStmt.extCall f :: rest => f :: callNames rest
  | PStmt.tryExcept b h :: rest => callNames b ++ callNames h ++ callNames rest

/-- Execution of a statement list: an oracle says which external calls
raise which error; `try/except` runs the handler on an error in the
body; an uncaught error aborts the rest of the list. -/
def execStmts (oracle : String → Option String) : List PStmt → Except String Unit
  | [] => Except.ok ()
  | PStmt.assign :: rest => execStmts oracle rest
  | PStmt.extCall f :: rest =>
    match oracle f with
    | some e => Except.error e
    | none => execStmts oracle rest
  | PStmt.tryExcept body handler :: rest =>
    match execStmts oracle body with
    | Except.ok _ => execStmts oracle rest
    | Except.error _ =>
      match execStmts oracle handler with
      | Except.ok _ => execStmts oracle rest
      | Except.error e => Except.error e

/-- An error surfacing from a handler-free statement list is the error
of one of its external calls, unchanged. -/
lemma exec_error_from_call (oracle : String → Option String) :
    ∀ p : List PStmt, hasHandler p = false →
    ∀ e, execStmts oracle p = Except.error e →
    ∃ f ∈ callNames p, oracle f = some e := by
  intro p
  induction p with
  | nil => intro _ e he; simp [execStmts] at he
  | cons head tail ih =>
    cases head with
    | assign =>
      intro hh e he
      simp only [hasHandler] at hh
      simp only [execStmts] at he
      simp only [callNames]
      exact ih hh e he
    | extCall g =>
      intro hh e he
      simp only [hasHandler] at hh
      simp only [execStmts] at he
      simp only [callNames]
      rcases hog : oracle g with _ | e2
      · rw [hog] at he
        obtain ⟨f, hf, ho⟩ := ih hh e he
        exact ⟨f, List.mem_cons_of_mem g hf, ho⟩
      · rw [hog] at he
        obtain rfl : e2 = e := by simpa using he
        exact ⟨g, List.mem_cons_self g _, hog⟩
    | tryExcept b h =>
      intro hh
      simp [hasHandler] at hh

/-- The statements of `run_Entrainment.ipynb`, cell by cell.  Plain
configuration assignments and list appends are `assign`; constructor,
build, init and batch calls are external calls. -/
def runEntrainmentStmts : List PStmt :=
  [PStmt.assign]                          -- cell 1: import block
  ++ [PStmt.extCall "Model"]              -- m = Model(name=..., environ=...)
  ++ [PStmt.assign]                       -- print loop over m.environ
  ++ [PStmt.extCall "Model.build"]        -- m.build()
  ++ [PStmt.extCall "Model.init_config"]  -- cfg = m.init_config()
  ++ List.replicate 46 PStmt.assign       -- configuration assignments
  ++ List.replicate 2 PStmt.assign        -- cfgs = [], labels = []
  ++ List.replicate 30 PStmt.assign       -- scheme updates, appends of deep copies
  ++ [PStmt.extCall "Model.run_batch"]    -- sims = m.run_batch(...)

/-- The statements of `run_Entrainment-KC04.ipynb`, cell by cell, with
the `e6`/`c4` loops unrolled. -/
def kc04RunStmts : List PStmt :=
  [PStmt.assign]                          -- cell 1: import block
  ++ [PStmt.extCall "Model"]              -- m = Model(name=..., environ=...)
  ++ [PStmt.assign]                       -- print loop over m.environ
  ++ [PStmt.extCall "Model.build"]        -- m.build()
  ++ [PStmt.extCall "Model.init_config"]  -- cfg = m.init_config()
  ++ List.replicate 46 PStmt.assign       -- configuration assignments
  ++ List.replicate 2 PStmt.assign        -- cfgs = [], labels = []
  ++ List.replicate 54 PStmt.assign       -- KC04-MY and KC04-k-omega variants
  ++ List.replicate 40 PStmt.assign       -- no-Stokes variants
  ++ [PStmt.extCall "Model.run_batch"]    -- sims = m.run_batch(...)

/-- The statements of `plot_Entrainment-KC04-MY.ipynb`, with the case
loops unrolled over the seven case names. -/
def plotStmts : List PStmt :=
  [PStmt.assign]                          -- cell 1: import block
  ++ List.replicate 14 PStmt.assign       -- casenames/labels/colors/markers
  ++ [PStmt.extCall "os.symlink", PStmt.extCall "os.symlink"]  -- symlink loop
  ++ [PStmt.assign]                       -- save_fig = True
  ++ (List.replicate 7 [PStmt.extCall "Simulation",
        PStmt.extCall "Simulation.load_data"]).flatten  -- load loop
  ++ List.replicate 5 PStmt.assign        -- N0, ustar, sec, mld_val, mld_p79
  ++ List.replicate 12 PStmt.assign       -- figure statements
  ++ [PStmt.extCall "fig.savefig"]        -- fig.savefig(figname, dpi=300)

/-- C4: none of the notebooks contains an exception handler, and any
error raised by an external call surfaces unchanged as the result of
executing the notebook. -/
theorem no_exception_handler :
    (hasHandler runEntrainmentStmts = false ∧ hasHandler kc04RunStmts = false ∧
     hasHandler plotStmts = false) ∧
    (∀ oracle e, execStmts oracle runEntrainmentStmts = Except.error e →
       ∃ f ∈ callNames runEntrainmentStmts, oracle f = some e) ∧
    (∀ oracle e, execStmts oracle kc04RunStmts = Except.error e →
       ∃ f ∈ callNames kc04RunStmts, oracle f = some e) ∧
    (∀ oracle e, execStmts oracle plotStmts = Except.error e →
       ∃ f ∈ callNames plotStmts, oracle f = some e) := by
  refine ⟨⟨by decide, by decide, by decide⟩, ?_, ?_, ?_⟩ <;>
    exact fun oracle e he => exec_error_from_call oracle _ (by decide) e he

/-- An oracle on which `m.build()` fails. -/
def buildFailOracle : String → Option String :=
  fun f => if f = "Model.build" then some "BuildError" else none

/-- Witness for C4: a failing build surfaces its error unchanged. -/
theorem no_exception_handler_witness :
    execStmts buildFailOracle runEntrainmentStmts = Except.error "BuildError" ∧
    ∃ f ∈ callNames runEntrainmentStmts, buildFailOracle f = some "BuildError" :=
  ⟨by simp [runEntrainmentStmts, execStmts, buildFailOracle, List.replicate],
   no_exception_handler.2.1 buildFailOracle "BuildError"
     (by simp [runEntrainmentStmts, execStmts, buildFailOracle, List.replicate])⟩

/-! ### The batch join -/

/-- An observable event of a batch run: completion of the process with
a given index, or the collection of the results. -/
inductive BatchEvent where
  | finish (i : Nat)
  | collect
deriving DecidableEq

/-- Modelled from the spec: the process pool inside `Model.run_batch`
of gotmtool, which is not part of this repository's sources.  Per the
spec, the batch is a fixed-size pool of independent OS processes and
results are collected only after all processes complete (a simple
join/barrier).  `ord` is the order in which the `n` processes happen to
complete; the event trace is those completions followed by the single
collection event at the join. -/
def runBatchTrace (ord : List Nat) : List BatchEvent :=
  ord.map BatchEvent.finish ++ [BatchEvent.collect]

/-- C7: in any completed batch of `n` processes the collection event is
the last event, everything before it is a process completion, and every
one of the `n` processes completes before the collection point. -/
theorem batch_join_before_collect (n : Nat) (ord : List Nat)
    (hperm : ord.Perm (List.range n)) :
    (runBatchTrace ord).getLast? = some BatchEvent.collect ∧
    (runBatchTrace ord).dropLast = ord.map BatchEvent.finish ∧
    ∀ i < n, BatchEvent.finish i ∈ (runBatchTrace ord).dropLast := by
  refine ⟨?_, ?_, ?_⟩
  · rw [runBatchTrace, List.getLast?_concat]
  · rw [runBatchTrace, List.dropLast_concat]
  · intro i hi
    rw [runBatchTrace, List.dropLast_concat]
    exact List.mem_map_of_mem BatchEvent.finish
      (hperm.mem_iff.mpr (List.mem_range.mpr hi))

/-- Witness for C7 with two processes completing out of order. -/
theorem batch_join_before_collect_witness :
    ([1, 0].Perm (List.range 2)) ∧
    ((runBatchTrace [1, 0]).getLast? = some BatchEvent.collect ∧
     (runBatchTrace [1, 0]).dropLast = [1, 0].map BatchEvent.finish ∧
     ∀ i < 2, BatchEvent.finish i ∈ (runBatchTrace [1, 0]).dropLast) :=
  ⟨by decide, batch_join_before_collect 2 [1, 0] (by decide)⟩

/-! ### Configuration objects and `copy.deepcopy`

The run notebooks mutate one configuration object `cfg` (a tree of
nested Python dicts rooted at the object returned by
`m.init_config()`) and append `copy.deepcopy(cfg)` to the batch list
`cfgs`.  To settle the aliasing claim faithfully, Python's object graph
is modelled by an explicit heap: addresses hold dictionaries whose
values are either scalars (numbers, strings, booleans, rendered as
strings) or references to other addresses.  `deepcopy` reads the tree
value of the object graph and re-allocates it at fresh addresses;
`cfg[k1]...[kn] = v` walks references from the root and updates one
dictionary in place.  Python lists of dicts (the `variables` entry) are
rendered as dicts keyed by the index. -/

/-- A Python dictionary value: a scalar or a reference to a heap
object. -/
inductive PyVal where
  | prim (s : String)
  | ref (a : Nat)
deriving DecidableEq

/-- A heap object: a dictionary in insertion order. -/
abbrev PyDict := List (String × PyVal)

/-- The heap: a partial map from addresses to dictionaries, plus the
next fresh address.  Addresses at or above `next` are unallocated. -/
structure Heap where
  objs : Nat → Option PyDict
  next : Nat

/-- The pure tree value of a configuration (the snapshot `deepcopy`
reproduces). -/
inductive Config where
  | prim (s : String)
  | dict (entries : List (String × Config))

/-- One level of reading a dictionary out of the heap, parameterized by
the reader for the next nesting level. -/
def readStep (rd : Heap → PyDict → Option (List (String × Config)))
    (h : Heap) : PyDict → Option (List (String × Config))
  | [] => some []
  | (k, PyVal.prim s) :: rest =>
    (readStep rd h rest).map (fun r => (k, Config.prim s) :: r)
  | (k, PyVal.ref a) :: rest =>
    match h.objs a with
    | none => none
    | some d2 =>
      match rd h d2, readStep rd h rest with
      | some c, some r => some ((k, Config.dict c) :: r)
      | _, _ => none

/-- Read the tree value of a dictionary, following references up to
`fuel` nesting levels. -/
def readDictF : Nat → Heap → PyDict → Option (List (String × Config))
  | 0, _, _ => none
  | fuel+1, h, d => readStep (readDictF fuel) h d

/-- Read the tree value of a Python value (the snapshot of the object
graph below it). -/
def readConfig (fuel : Nat) (h : Heap) : PyVal → Option Config
  | PyVal.prim s => some (Config.prim s)
  | PyVal.ref a =>
    match h.objs a with
    | none => none
    | some d => (readDictF fuel h d).map Config.dict

/-- One level of allocating entry values into the heap, parameterized
by the allocator for the next nesting level.  Nested dicts are placed
at the fresh address `next`. -/
def allocStep (al : Heap → List (String × Config) → Option (Heap × PyDict))
    (h : Heap) : List (String × Config) → Option (Heap × PyDict)
  | [] => some (h, [])
  | (k, Config.prim s) :: rest =>
    (allocStep al h rest).map (fun q => (q.1, (k, PyVal.prim s) :: q.2))
  | (k, Config.dict es) :: rest =>
    match al h es with
    | none => none
    | some p =>
      let hobj : Heap :=
        { objs := fun b => if b = p.1.next then some p.2 else p.1.objs b,
          next := p.1.next + 1 }
      (allocStep al hobj rest).map (fun q => (q.1, (k, PyVal.ref p.1.next) :: q.2))

/-- Allocate a list of entries into the heap, following nesting up to
`fuel` levels. -/
def allocEntriesF : Nat → Heap → List (String × Config) → Option (Heap × PyDict)
  | 0, _, _ => none
  | fuel+1, h, es => allocStep (allocEntriesF fuel) h es

/-- Allocate a configuration tree into the heap (the writing half of
`copy.deepcopy`): scalars stay scalars, a dict becomes a fresh
object. -/
def allocConfig (fuel : Nat) (h : Heap) : Config → Option (Heap × PyVal)
  | Config.prim s => some (h, PyVal.prim s)
  | Config.dict es =>
    match allocEntriesF fuel h es with
    | none => none
    | some p =>
      some ({ objs := fun b => if b = p.1.next then some p.2 else p.1.objs b,
              next := p.1.next + 1 },
            PyVal.ref p.1.next)

/-- The statement `cfg[k1]...[kn] = v`: walk references from address
`a` along the path and update the final dictionary in place (`none`
models `KeyError` on a missing intermediate key). -/
def setIn : Heap → Nat → List String → PyVal → Option Heap
  | _, _, [], _ => none
  | h, a, [k], v =>
    match h.objs a with
    | none => none
    | some d =>
      some { objs := fun b => if b = a then some (dictSet d k v) else h.objs b,
             next := h.next }
  | h, a, k :: k2 :: ks, v =>
    match h.objs a with
    | none => none
    | some d =>
      match dictGet d k with
      | some (PyVal.ref b) => setIn h b (k2 :: ks) v
      | _ => none

/-- The state of a run notebook: the heap, the address of `cfg`, the
batch list `cfgs` (heap values appended by `deepcopy`), the label list,
and the arguments of the `run_batch` calls made so far. -/
structure RunState where
  heap : Heap
  cfgRoot : Nat
  cfgs : List PyVal
  labels : List String
  batchCalls : List (List PyVal × List String)

/-- One notebook operation on the batch state. -/
inductive COp where
  | setField (path : List String) (lit : Config)
  | appendCfg
  | appendLabel (s : String)
  | runBatch

/-- Execution of one operation.  `setField` allocates the assigned
literal and writes it through the path from `cfg`'s root;
`appendCfg` is `cfgs.append(copy.deepcopy(cfg))`: it snapshots the
object graph under `cfg` and re-allocates it at fresh addresses;
`appendLabel` is `labels.append(s)`; `runBatch` records the lists it
was called with. -/
def execOp (s : RunState) : COp → Option RunState
  | COp.setField path lit =>
    match allocConfig (s.heap.next + 1) s.heap lit with
    | none => none
    | some (h1, v) =>
      match setIn h1 s.cfgRoot path v with
      | none => none
      | some h2 => some { s with heap := h2 }
  | COp.appendCfg =>
    match readConfig (s.heap.next + 1) s.heap (PyVal.ref s.cfgRoot) with
    | none => none
    | some c =>
      match allocConfig (s.heap.next + 1) s.heap c with
      | none => none
      | some (h1, v) => some { s with heap := h1, cfgs := s.cfgs ++ [v] }
  | COp.appendLabel str => some { s with labels := s.labels ++ [str] }
  | COp.runBatch =>
    some { s with batchCalls := s.batchCalls ++ [(s.cfgs, s.labels)] }

/-- Execution of a list of operations, aborting on the first failure. -/
def runOps : RunState → List COp → Option RunState
  | s, [] => some s
  | s, op :: ops =>
    match execOp s op with
    | none => none
    | some s2 => runOps s2 ops

/-- The empty heap. -/
def emptyHeap : Heap := { objs := fun _ => none, next := 0 }

/-- The state after `cfg = m.init_config()`, given the schema entries
of the initial configuration: the schema tree is allocated into the
empty heap and `cfg` points at its root; `cfgs` and `labels` start
empty. -/
def initState (fuel : Nat) (es : List (String × Config)) : Option RunState :=
  match allocConfig fuel emptyHeap (Config.dict es) with
  | some (h, PyVal.ref a) =>
    some { heap := h, cfgRoot := a, cfgs := [], labels := [], batchCalls := [] }
  | _ => none

/-! ### Reachability in the object graph -/

/-- One dereference step: the dictionary at `a` holds a reference to
`b`. -/
def Edge (h : Heap) (a b : Nat) : Prop :=
  ∃ d k, h.objs a = some d ∧ (k, PyVal.ref b) ∈ d

/-- Reachability along references. -/
def Reaches (h : Heap) : Nat → Nat → Prop :=
  Relation.ReflTransGen (Edge h)

/-- Reachability from a Python value (a scalar reaches nothing). -/
def ReachesPV (h : Heap) : PyVal → Nat → Prop
  | PyVal.prim _, _ => False
  | PyVal.ref a, b => Reaches h a b

/-- All references of a dictionary point below `n`. -/
def DictBelow (n : Nat) (d : PyDict) : Prop :=
  ∀ k b, (k, PyVal.ref b) ∈ d → b < n

/-- Heap well-formedness: allocated addresses lie below `next` and all
stored references point below `next`. -/
def Closed (h : Heap) : Prop :=
  ∀ a d, h.objs a = some d → a < h.next ∧ DictBelow h.next d

/-- A value whose reference (if any) lies in `[lo, hi)`. -/
def PVIn (lo hi : Nat) : PyVal → Prop
  | PyVal.prim _ => True
  | PyVal.ref a => lo ≤ a ∧ a < hi

/-- A dictionary all of whose references lie in `[lo, hi)`. -/
def DictIn (lo hi : Nat) (d : PyDict) : Prop :=
  ∀ k b, (k, PyVal.ref b) ∈ d → lo ≤ b ∧ b < hi

/-- Reachability from any reference held in a dictionary. -/
def DReach (h : Heap) (d : PyDict) (b : Nat) : Prop :=
  ∃ k a, (k, PyVal.ref a) ∈ d ∧ Reaches h a b

lemma dictGet_mem {α : Type} : ∀ {d : List (String × α)} {k : String} {v : α},
    dictGet d k = some v → (k, v) ∈ d := by
  intro d
  induction d with
  | nil => intro k v hv; simp [dictGet] at hv
  | cons kv rest ih =>
    intro k v hv
    obtain ⟨k1, v1⟩ := kv
    by_cases hk : k = k1
    · simp [dictGet, hk] at hv
      subst hk; subst hv
      exact List.mem_cons_self _ _
    · simp [dictGet, hk] at hv
      exact List.mem_cons_of_mem _ (ih hv)

lemma dictSet_mem {α : Type} : ∀ {d : List (String × α)} {k : String} {v : α}
    {k2 : String} {w : α}, (k2, w) ∈ dictSet d k v →
    (k2, w) ∈ d ∨ (k2 = k ∧ w = v) := by
  intro d
  induction d with
  | nil => intro k v k2 w hw; simp [dictSet] at hw; exact Or.inr hw
  | cons kv rest ih =>
    intro k v k2 w hw
    obtain ⟨k1, v1⟩ := kv
    by_cases hk : k = k1
    · simp [dictSet, hk] at hw
      rcases hw with ⟨rfl, rfl⟩ | hmem
      · exact Or.inr ⟨hk.symm ▸ rfl, rfl⟩
      · exact Or.inl (List.mem_cons_of_mem _ hmem)
    · simp only [dictSet, if_neg hk, List.mem_cons] at hw
      rcases hw with heq | hmem
      · exact Or.inl (heq ▸ List.mem_cons_self _ _)
      · rcases ih hmem with hmem2 | hkv
        · exact Or.inl (List.mem_cons_of_mem _ hmem2)
        · exact Or.inr hkv

lemma reach_below {h : Heap} (hc : Closed h) {a b : Nat} (ha : a < h.next)
    (hr : Reaches h a b) : b < h.next := by
  induction hr with
  | refl => exact ha
  | tail _ hedge ih =>
    obtain ⟨d, k, hobj, hmem⟩ := hedge
    exact (hc _ _ hobj).2 k _ hmem

lemma reach_frame {h h2 : Heap} {a : Nat}
    (hagree : ∀ x, Reaches h a x → h2.objs x = h.objs x) :
    ∀ b, Reaches h2 a b ↔ Reaches h a b := by
  intro b
  constructor
  · intro hr
    induction hr with
    | refl => exact Relation.ReflTransGen.refl
    | tail _ hedge ih =>
      obtain ⟨d, k, hobj, hmem⟩ := hedge
      rw [hagree _ ih] at hobj
      exact Relation.ReflTransGen.tail ih ⟨d, k, hobj, hmem⟩
  · intro hr
    induction hr with
    | refl => exact Relation.ReflTransGen.refl
    | tail hab hedge ih =>
      obtain ⟨d, k, hobj, hmem⟩ := hedge
      rw [← hagree _ hab] at hobj
      exact Relation.ReflTransGen.tail ih ⟨d, k, hobj, hmem⟩

lemma readDictF_frame {h h2 : Heap} : ∀ (fuel : Nat) (d : PyDict),
    (∀ b, DReach h d b → h2.objs b = h.objs b) →
    readDictF fuel h2 d = readDictF fuel h d := by
  intro fuel
  induction fuel with
  | zero => intro d _; rfl
  | succ fuel ih =>
    intro d
    induction d with
    | nil => intro _; rfl
    | cons kv rest ihd =>
      intro hagree
      obtain ⟨k, v⟩ := kv
      have hrest : readDictF (fuel + 1) h2 rest = readDictF (fuel + 1) h rest := by
        apply ihd
        intro b ⟨k2, a2, hmem, hr⟩
        exact hagree b ⟨k2, a2, List.mem_cons_of_mem _ hmem, hr⟩
      cases v with
      | prim s =>
        show readStep (readDictF fuel) h2 ((k, PyVal.prim s) :: rest)
          = readStep (readDictF fuel) h ((k, PyVal.prim s) :: rest)
        simp only [readStep]
        rw [show readStep (readDictF fuel) h2 rest = readStep (readDictF fuel) h rest
          from hrest]
      | ref a =>
        show readStep (readDictF fuel) h2 ((k, PyVal.ref a) :: rest)
          = readStep (readDictF fuel) h ((k, PyVal.ref a) :: rest)
        simp only [readStep]
        have hobja : h2.objs a = h.objs a :=
          hagree a ⟨k, a, List.mem_cons_self _ _, Relation.ReflTransGen.refl⟩
        rw [hobja]
        cases hoa : h.objs a with
        | none => rfl
        | some d2 =>
          have hd2 : readDictF fuel h2 d2 = readDictF fuel h d2 := by
            apply ih
            intro b ⟨k2, a2, hmem2, hr2⟩
            refine hagree b ⟨k, a, List.mem_cons_self _ _, ?_⟩
            exact Relation.ReflTransGen.head ⟨d2, k2, hoa, hmem2⟩ hr2
          dsimp only
          rw [hd2,
            show readStep (readDictF fuel) h2 rest = readStep (readDictF fuel) h rest
              from hrest]

lemma readConfig_frame {h h2 : Heap} {p : PyVal}
    (hagree : ∀ b, ReachesPV h p b → h2.objs b = h.objs b) (fuel : Nat) :
    readConfig fuel h2 p = readConfig fuel h p := by
  cases p with
  | prim s => rfl
  | ref a =>
    simp only [readConfig]
    have hobja : h2.objs a = h.objs a := hagree a Relation.ReflTransGen.refl
    rw [hobja]
    cases hoa : h.objs a with
    | none => rfl
    | some d =>
      have hd : readDictF fuel h2 d = readDictF fuel h d := by
        apply readDictF_frame
        intro b ⟨k2, a2, hmem2, hr2⟩
        exact hagree b (Relation.ReflTransGen.head ⟨d, k2, hoa, hmem2⟩ hr2)
      dsimp only
      rw [hd]

/-! ### Properties of allocation -/

/-- Bundle of facts about an allocation taking `h` to `h2` and
producing the dictionary `d`: `next` grows, old and out-of-range
addresses are untouched, all produced references are fresh, and every
newly allocated object only references fresh addresses. -/
def AllocProps (h h2 : Heap) (d : PyDict) : Prop :=
  h.next ≤ h2.next ∧
  (∀ b, b < h.next → h2.objs b = h.objs b) ∧
  (∀ b, h2.next ≤ b → h2.objs b = h.objs b) ∧
  DictIn h.next h2.next d ∧
  (∀ a dd, h.next ≤ a → h2.objs a = some dd →
    h.objs a = some dd ∨ DictIn h.next h2.next dd)

/-- The same bundle for an allocation producing a single value. -/
def AllocVProps (h h2 : Heap) (v : PyVal) : Prop :=
  h.next ≤ h2.next ∧
  (∀ b, b < h.next → h2.objs b = h.objs b) ∧
  (∀ b, h2.next ≤ b → h2.objs b = h.objs b) ∧
  PVIn h.next h2.next v ∧
  (∀ a dd, h.next ≤ a → h2.objs a = some dd →
    h.objs a = some dd ∨ DictIn h.next h2.next dd)

lemma dictIn_mono {lo hi lo2 hi2 : Nat} {d : PyDict} (hd : DictIn lo hi d)
    (hlo : lo2 ≤ lo) (hhi : hi ≤ hi2) : DictIn lo2 hi2 d := by
  intro k b hb
  obtain ⟨h1, h2⟩ := hd k b hb
  exact ⟨le_trans hlo h1, lt_of_lt_of_le h2 hhi⟩

lemma allocStep_props
    (al : Heap → List (String × Config) → Option (Heap × PyDict))
    (hal : ∀ h es h2 d, al h es = some (h2, d) → AllocProps h h2 d) :
    ∀ (es : List (String × Config)) (h h2 : Heap) (d : PyDict),
    allocStep al h es = some (h2, d) → AllocProps h h2 d := by
  intro es
  induction es with
  | nil =>
    intro h h2 d hE
    simp only [allocStep, Option.some.injEq, Prod.mk.injEq] at hE
    obtain ⟨rfl, rfl⟩ := hE
    refine ⟨le_refl _, fun b _ => rfl, fun b _ => rfl, ?_, ?_⟩
    · intro k b hb; simp at hb
    · intro a dd _ hdd; exact Or.inl hdd
  | cons kc rest ih =>
    intro h h2 d hE
    obtain ⟨k, c⟩ := kc
    cases c with
    | prim s =>
      simp only [allocStep] at hE
      cases hR : allocStep al h rest with
      | none => rw [hR] at hE; simp at hE
      | some q =>
        obtain ⟨q1, q2⟩ := q
        rw [hR] at hE
        simp only [Option.map, Option.some.injEq, Prod.mk.injEq] at hE
        obtain ⟨rfl, rfl⟩ := hE
        obtain ⟨hqle, hqold, hqabove, hqdin, hqfresh⟩ := ih h q1 q2 hR
        refine ⟨hqle, hqold, hqabove, ?_, hqfresh⟩
        intro k2 b hb
        rcases List.mem_cons.mp hb with heq | hmem
        · have hb2 : PyVal.ref b = PyVal.prim s := congrArg Prod.snd heq
          simp at hb2
        · exact hqdin k2 b hmem
    | dict es2 =>
      simp only [allocStep] at hE
      cases hN : al h es2 with
      | none => rw [hN] at hE; simp at hE
      | some p =>
        obtain ⟨p1, p2⟩ := p
        rw [hN] at hE
        dsimp only at hE
        obtain ⟨hp1le, hpold, hpabove, hpdin, hpfresh⟩ := hal h es2 p1 p2 hN
        cases hR : allocStep al
            { objs := fun b => if b = p1.next then some p2 else p1.objs b,
              next := p1.next + 1 } rest with
        | none => rw [hR] at hE; simp at hE
        | some q =>
          obtain ⟨q1, q2⟩ := q
          rw [hR] at hE
          simp only [Option.map, Option.some.injEq, Prod.mk.injEq] at hE
          obtain ⟨rfl, rfl⟩ := hE
          obtain ⟨hqle, hqold, hqabove, hqdin, hqfresh⟩ := ih _ q1 q2 hR
          refine ⟨?_, ?_, ?_, ?_, ?_⟩
          · exact le_trans hp1le (le_trans (Nat.le_succ _) hqle)
          · intro b hb
            have hb1 : b < p1.next := lt_of_lt_of_le hb hp1le
            rw [hqold b (Nat.lt_succ_of_lt hb1)]
            dsimp only
            rw [if_neg (Nat.ne_of_lt hb1)]
            exact hpold b hb
          · intro b hb
            have hb1 : p1.next + 1 ≤ b := le_trans hqle hb
            rw [hqabove b hb]
            dsimp only
            rw [if_neg (Nat.ne_of_gt (Nat.lt_of_succ_le hb1))]
            exact hpabove b (le_of_lt (Nat.lt_of_succ_le hb1))
          · intro k2 b hb
            rcases List.mem_cons.mp hb with heq | hmem
            · have hb2 : PyVal.ref b = PyVal.ref p1.next := congrArg Prod.snd heq
              injection hb2 with hb3
              subst hb3
              exact ⟨hp1le, lt_of_lt_of_le (Nat.lt_succ_self _) hqle⟩
            · obtain ⟨hlo, hhi⟩ := hqdin k2 b hmem
              exact ⟨le_trans hp1le (le_trans (Nat.le_succ _) hlo), hhi⟩
          · intro a dd ha hdd
            by_cases hcase : p1.next + 1 ≤ a
            · rcases hqfresh a dd hcase hdd with hnew | hdin
              · dsimp only at hnew
                rw [if_neg (Nat.ne_of_gt (Nat.lt_of_succ_le hcase))] at hnew
                rcases hpfresh a dd ha hnew with hold2 | hdin2
                · exact Or.inl hold2
                · exact Or.inr (dictIn_mono hdin2 (le_refl _)
                    (le_trans (Nat.le_succ _) hqle))
              · exact Or.inr (dictIn_mono hdin (le_trans hp1le (Nat.le_succ _))
                  (le_refl _))
            · have hlt : a < p1.next + 1 := Nat.lt_of_not_le hcase
              rw [hqold a hlt] at hdd
              dsimp only at hdd
              by_cases hae : a = p1.next
              · subst hae
                rw [if_pos rfl] at hdd
                obtain rfl := Option.some.inj hdd
                exact Or.inr (dictIn_mono hpdin (le_refl _)
                  (le_trans (Nat.le_succ _) hqle))
              · rw [if_neg hae] at hdd
                rcases hpfresh a dd ha hdd with hold2 | hdin2
                · exact Or.inl hold2
                · exact Or.inr (dictIn_mono hdin2 (le_refl _)
                    (le_trans (Nat.le_succ _) hqle))

lemma allocEntriesF_props : ∀ (fuel : Nat) (h : Heap)
    (es : List (String × Config)) (h2 : Heap) (d : PyDict),
    allocEntriesF fuel h es = some (h2, d) → AllocProps h h2 d := by
  intro fuel
  induction fuel with
  | zero => intro h es h2 d hE; simp [allocEntriesF] at hE
  | succ fuel ih =>
    intro h es h2 d hE
    rw [allocEntriesF] at hE
    exact allocStep_props (allocEntriesF fuel) (fun h3 es3 h4 d4 => ih h3 es3 h4 d4)
      es h h2 d hE

lemma allocConfig_props : ∀ (fuel : Nat) (h : Heap) (c : Config) (h2 : Heap)
    (v : PyVal), allocConfig fuel h c = some (h2, v) → AllocVProps h h2 v := by
  intro fuel h c h2 v hE
  cases c with
  | prim s =>
    simp only [allocConfig, Option.some.injEq, Prod.mk.injEq] at hE
    obtain ⟨rfl, rfl⟩ := hE
    refine ⟨le_refl _, fun b _ => rfl, fun b _ => rfl, trivial, ?_⟩
    intro a dd _ hdd; exact Or.inl hdd
  | dict es =>
    simp only [allocConfig] at hE
    cases hN : allocEntriesF fuel h es with
    | none => rw [hN] at hE; simp at hE
    | some p =>
      obtain ⟨p1, p2⟩ := p
      rw [hN] at hE
      simp only [Option.some.injEq, Prod.mk.injEq] at hE
      obtain ⟨rfl, rfl⟩ := hE
      obtain ⟨hp1le, hpold, hpabove, hpdin, hpfresh⟩ := allocEntriesF_props _ _ _ _ _ hN
      refine ⟨le_trans hp1le (Nat.le_succ _), ?_, ?_, ?_, ?_⟩
      · intro b hb
        dsimp only
        rw [if_neg (Nat.ne_of_lt (lt_of_lt_of_le hb hp1le))]
        exact hpold b hb
      · intro b hb
        dsimp only at hb ⊢
        rw [if_neg (Nat.ne_of_gt (Nat.lt_of_succ_le hb))]
        exact hpabove b (le_of_lt (Nat.lt_of_succ_le hb))
      · exact ⟨hp1le, Nat.lt_succ_self _⟩
      · intro a dd ha hdd
        dsimp only at hdd
        by_cases hae : a = p1.next
        · subst hae
          rw [if_pos rfl] at hdd
          obtain rfl := Option.some.inj hdd
          exact Or.inr (dictIn_mono hpdin (le_refl _) (Nat.le_succ _))
        · rw [if_neg hae] at hdd
          rcases hpfresh a dd ha hdd with hold2 | hdin2
          · exact Or.inl hold2
          · exact Or.inr (dictIn_mono hdin2 (le_refl _) (Nat.le_succ _))

lemma closed_of_allocVProps {h h2 : Heap} {v : PyVal} (hc : Closed h)
    (hp : AllocVProps h h2 v) : Closed h2 := by
  obtain ⟨hle, hold, habove, _, hfresh⟩ := hp
  intro a dd hdd
  by_cases ha : a < h.next
  · rw [hold a ha] at hdd
    obtain ⟨ha2, hbelow⟩ := hc a dd hdd
    refine ⟨lt_of_lt_of_le ha2 hle, ?_⟩
    intro k b hb
    exact lt_of_lt_of_le (hbelow k b hb) hle
  · have ha2 : h.next ≤ a := Nat.le_of_not_lt ha
    have hnone : h.objs a = none := by
      cases hoa : h.objs a with
      | none => rfl
      | some d0 => exact absurd (hc a d0 hoa).1 (by omega)
    rcases hfresh a dd ha2 hdd with hold2 | hdin
    · rw [hnone] at hold2; simp at hold2
    · constructor
      · by_cases hlt : a < h2.next
        · exact hlt
        · rw [habove a (Nat.le_of_not_lt hlt), hnone] at hdd
          simp at hdd
      · intro k b hb
        exact (hdin k b hb).2

lemma fresh_reach {h h2 : Heap} {v : PyVal} (hc : Closed h)
    (hp : AllocVProps h h2 v) : ∀ f b, h.next ≤ f → Reaches h2 f b →
    h.next ≤ b := by
  intro f b hf hr
  induction hr with
  | refl => exact hf
  | tail hac hedge ih =>
    rename_i mid fin
    obtain ⟨d, k, hobj, hmem⟩ := hedge
    have hnone : h.objs mid = none := by
      cases hoa : h.objs mid with
      | none => rfl
      | some d0 => exact absurd (hc mid d0 hoa).1 (by omega)
    rcases hp.2.2.2.2 mid d ih hobj with hold2 | hdin
    · rw [hnone] at hold2; simp at hold2
    · exact (hdin k fin hmem).1

lemma setIn_spec : ∀ (path : List String) (h : Heap) (a : Nat) (v : PyVal)
    (h2 : Heap), setIn h a path v = some h2 →
    ∃ m d lk, Reaches h a m ∧ h.objs m = some d ∧
      h2.next = h.next ∧
      (∀ b, b ≠ m → h2.objs b = h.objs b) ∧
      h2.objs m = some (dictSet d lk v) := by
  intro path
  induction path with
  | nil => intro h a v h2 hE; simp [setIn] at hE
  | cons k rest ih =>
    intro h a v h2 hE
    cases rest with
    | nil =>
      simp only [setIn] at hE
      cases hoa : h.objs a with
      | none => rw [hoa] at hE; simp at hE
      | some d =>
        rw [hoa] at hE
        simp only [Option.some.injEq] at hE
        subst hE
        refine ⟨a, d, k, Relation.ReflTransGen.refl, hoa, rfl, ?_, ?_⟩
        · intro b hb
          dsimp only
          rw [if_neg hb]
        · dsimp only
          rw [if_pos rfl]
    | cons k2 ks =>
      simp only [setIn] at hE
      cases hoa : h.objs a with
      | none => rw [hoa] at hE; simp at hE
      | some d =>
        rw [hoa] at hE
        dsimp only at hE
        cases hg : dictGet d k with
        | none => rw [hg] at hE; simp at hE
        | some w =>
          rw [hg] at hE
          cases w with
          | prim s => simp at hE
          | ref b =>
            dsimp only at hE
            obtain ⟨m, d2, lk, hr, hobj, hnext, hoff, hm⟩ := ih h b v h2 hE
            refine ⟨m, d2, lk, ?_, hobj, hnext, hoff, hm⟩
            exact Relation.ReflTransGen.head ⟨d, k, hoa, dictGet_mem hg⟩ hr

lemma reach_setIn {h1 h2 : Heap} {m : Nat} {d : PyDict} {lk : String}
    {v : PyVal} (hobj : h1.objs m = some d)
    (hoff : ∀ b, b ≠ m → h2.objs b = h1.objs b)
    (hm : h2.objs m = some (dictSet d lk v)) :
    ∀ x b, Reaches h2 x b →
      Reaches h1 x b ∨ (∃ f, v = PyVal.ref f ∧ Reaches h2 f b) := by
  intro x b hr
  induction hr with
  | refl => exact Or.inl Relation.ReflTransGen.refl
  | tail hxc hedge ih =>
    obtain ⟨dd, k2, hobjc, hmem⟩ := hedge
    rename_i c b2
    by_cases hcm : c = m
    · subst hcm
      rw [hm] at hobjc
      obtain rfl := Option.some.inj hobjc
      rcases dictSet_mem hmem with hmem2 | ⟨-, hveq⟩
      · rcases ih with hl | ⟨f, hf, hrf⟩
        · exact Or.inl (Relation.ReflTransGen.tail hl ⟨d, k2, hobj, hmem2⟩)
        · refine Or.inr ⟨f, hf, Relation.ReflTransGen.tail hrf ?_⟩
          exact ⟨dictSet d lk v, k2, hm, hmem⟩
      · exact Or.inr ⟨b2, hveq.symm, Relation.ReflTransGen.refl⟩
    · rw [hoff c hcm] at hobjc
      rcases ih with hl | ⟨f, hf, hrf⟩
      · exact Or.inl (Relation.ReflTransGen.tail hl ⟨dd, k2, hobjc, hmem⟩)
      · refine Or.inr ⟨f, hf, Relation.ReflTransGen.tail hrf ?_⟩
        refine ⟨dd, k2, ?_, hmem⟩
        rw [hoff c hcm]
        exact hobjc

/-! ### The isolation invariant -/

/-- Invariant of the run state: the heap is closed, `cfg`'s root is
allocated, and every batch entry is confined below `next` and shares no
reachable object with `cfg` (the separation `copy.deepcopy`
establishes). -/
def RunInv (s : RunState) : Prop :=
  Closed s.heap ∧ s.cfgRoot < s.heap.next ∧
  ∀ p ∈ s.cfgs, PVIn 0 s.heap.next p ∧
    (∀ b, ReachesPV s.heap p b → ¬ Reaches s.heap s.cfgRoot b)

lemma execOp_preserves : ∀ (s : RunState) (op : COp) (s2 : RunState),
    RunInv s → execOp s op = some s2 →
    s.cfgs <+: s2.cfgs ∧
    (∀ p ∈ s.cfgs, ∀ fuel, readConfig fuel s2.heap p = readConfig fuel s.heap p) ∧
    RunInv s2 := by
  intro s op s2 hInv hE
  obtain ⟨hc, hroot, hcfgs⟩ := hInv
  cases op with
  | appendLabel str =>
    simp only [execOp, Option.some.injEq] at hE
    subst hE
    exact ⟨List.prefix_rfl, fun p hp fuel => rfl, hc, hroot, hcfgs⟩
  | runBatch =>
    simp only [execOp, Option.some.injEq] at hE
    subst hE
    exact ⟨List.prefix_rfl, fun p hp fuel => rfl, hc, hroot, hcfgs⟩
  | setField path lit =>
    simp only [execOp] at hE
    cases hA : allocConfig (s.heap.next + 1) s.heap lit with
    | none => rw [hA] at hE; simp at hE
    | some pv =>
      obtain ⟨h1, v⟩ := pv
      rw [hA] at hE
      dsimp only at hE
      cases hS : setIn h1 s.cfgRoot path v with
      | none => rw [hS] at hE; simp at hE
      | some h2 =>
        rw [hS] at hE
        simp only [Option.some.injEq] at hE
        subst hE
        obtain ⟨hle, hold, habove, hvin, hfresh⟩ := allocConfig_props _ _ _ _ _ hA
        have hc1 : Closed h1 := closed_of_allocVProps hc ⟨hle, hold, habove, hvin, hfresh⟩
        obtain ⟨m, dm, lk, hrm1, hobjm, hnext2, hoff, hm2⟩ :=
          setIn_spec path h1 s.cfgRoot v h2 hS
        have hagree_old : ∀ a, a < s.heap.next →
            ∀ x, Reaches s.heap a x → h1.objs x = s.heap.objs x :=
          fun a ha x hx => hold x (reach_below hc ha hx)
        have hrootreach : ∀ b, Reaches h1 s.cfgRoot b ↔ Reaches s.heap s.cfgRoot b :=
          reach_frame (hagree_old _ hroot)
        have hrm : Reaches s.heap s.cfgRoot m := (hrootreach m).mp hrm1
        have hmlt : m < s.heap.next := reach_below hc hroot hrm
        have key : ∀ p ∈ s.cfgs, ∀ x, ReachesPV s.heap p x →
            h2.objs x = s.heap.objs x := by
          intro p hp x hx
          cases p with
          | prim s3 => exact False.elim hx
          | ref pa =>
            obtain ⟨hin, hsep⟩ := hcfgs _ hp
            have hpa : pa < s.heap.next := hin.2
            have hxm : x ≠ m := by
              intro hxeq; subst hxeq
              exact hsep x hx hrm
            rw [hoff x hxm]
            exact hagree_old pa hpa x hx
        refine ⟨List.prefix_rfl, ?_, ?_, ?_, ?_⟩
        · intro p hp fuel
          exact readConfig_frame (fun b hb => key p hp b hb) fuel
        · intro a dd hdd
          by_cases ham : a = m
          · subst ham
            rw [hm2] at hdd
            obtain rfl := Option.some.inj hdd
            refine ⟨by rw [hnext2]; exact (hc1 _ _ hobjm).1, ?_⟩
            intro k b hb
            rcases dictSet_mem hb with hmem2 | ⟨-, hveq⟩
            · rw [hnext2]; exact (hc1 _ _ hobjm).2 k b hmem2
            · rw [← hveq] at hvin
              rw [hnext2]
              exact hvin.2
          · rw [hoff a ham] at hdd
            obtain ⟨ha1, hbelow⟩ := hc1 a dd hdd
            rw [hnext2]
            exact ⟨ha1, hbelow⟩
        · rw [hnext2]
          exact lt_of_lt_of_le hroot hle
        · intro p hp
          obtain ⟨hin, hsep⟩ := hcfgs p hp
          refine ⟨?_, ?_⟩
          · cases p with
            | prim s3 => trivial
            | ref pa =>
              refine ⟨Nat.zero_le _, ?_⟩
              rw [hnext2]
              exact lt_of_lt_of_le hin.2 hle
          · intro b hb hcontra
            cases p with
            | prim s3 => exact False.elim hb
            | ref pa =>
              have hpa : pa < s.heap.next := hin.2
              have hb2 : Reaches s.heap pa b :=
                (reach_frame (fun x hx => key _ hp x hx) b).mp hb
              have hblt : b < s.heap.next := reach_below hc hpa hb2
              rcases reach_setIn hobjm hoff hm2 s.cfgRoot b hcontra with hr1 | ⟨f, hfv, hrf⟩
              · exact hsep b hb2 ((hrootreach b).mp hr1)
              · rw [hfv] at hvin
                have hf1 : s.heap.next ≤ f := hvin.1
                have hfagree : ∀ x, Reaches h1 f x → h2.objs x = h1.objs x := by
                  intro x hx
                  have hxge : s.heap.next ≤ x :=
                    fresh_reach hc ⟨hle, hold, habove, hfv ▸ hvin, hfresh⟩ f x hf1 hx
                  exact hoff x (by omega)
                have hrf1 : Reaches h1 f b := (reach_frame hfagree b).mp hrf
                have hbge : s.heap.next ≤ b :=
                  fresh_reach hc ⟨hle, hold, habove, hfv ▸ hvin, hfresh⟩ f b hf1 hrf1
                omega
  | appendCfg =>
    simp only [execOp] at hE
    cases hRC : readConfig (s.heap.next + 1) s.heap (PyVal.ref s.cfgRoot) with
    | none => rw [hRC] at hE; simp at hE
    | some c =>
      rw [hRC] at hE
      dsimp only at hE
      cases hA : allocConfig (s.heap.next + 1) s.heap c with
      | none => rw [hA] at hE; simp at hE
      | some pv =>
        obtain ⟨h1, v⟩ := pv
        rw [hA] at hE
        simp only [Option.some.injEq] at hE
        subst hE
        obtain ⟨hle, hold, habove, hvin, hfresh⟩ := allocConfig_props _ _ _ _ _ hA
        have hc1 : Closed h1 := closed_of_allocVProps hc ⟨hle, hold, habove, hvin, hfresh⟩
        have hagree_old : ∀ a, a < s.heap.next →
            ∀ x, Reaches s.heap a x → h1.objs x = s.heap.objs x :=
          fun a ha x hx => hold x (reach_below hc ha hx)
        refine ⟨⟨[v], rfl⟩, ?_, ?_, ?_, ?_⟩
        · intro p hp fuel
          apply readConfig_frame
          intro b hb
          cases p with
          | prim s3 => exact False.elim hb
          | ref pa =>
            obtain ⟨hin, -⟩ := hcfgs _ hp
            exact hagree_old pa hin.2 b hb
        · exact hc1
        · exact lt_of_lt_of_le hroot hle
        · intro p hp
          rcases List.mem_append.mp hp with hpold | hpnew
          · obtain ⟨hin, hsep⟩ := hcfgs p hpold
            refine ⟨?_, ?_⟩
            · cases p with
              | prim s3 => trivial
              | ref pa => exact ⟨Nat.zero_le _, lt_of_lt_of_le hin.2 hle⟩
            · intro b hb hcontra
              cases p with
              | prim s3 => exact False.elim hb
              | ref pa =>
                have hb2 : Reaches s.heap pa b :=
                  (reach_frame (hagree_old pa hin.2) b).mp hb
                have hcontra2 : Reaches s.heap s.cfgRoot b :=
                  (reach_frame (hagree_old _ hroot) b).mp hcontra
                exact hsep b hb2 hcontra2
          · obtain rfl := List.mem_singleton.mp hpnew
            refine ⟨?_, ?_⟩
            · cases p with
              | prim s3 => trivial
              | ref f => exact ⟨Nat.zero_le _, hvin.2⟩
            · intro b hb hcontra
              cases p with
              | prim s3 => exact False.elim hb
              | ref f =>
                have hbge : s.heap.next ≤ b :=
                  fresh_reach hc ⟨hle, hold, habove, hvin, hfresh⟩ f b hvin.1 hb
                have hcontra2 : Reaches s.heap s.cfgRoot b :=
                  (reach_frame (hagree_old _ hroot) b).mp hcontra
                have hblt : b < s.heap.next := reach_below hc hroot hcontra2
                omega

/-- C3: `copy.deepcopy` isolates batch entries.  From any state
satisfying the run invariant (in particular any state reached by the
notebooks), running any further sequence of notebook operations —
including assignments to arbitrary nested fields of `cfg` — only
extends `cfgs` and leaves the object graph (hence the value) of every
previously appended configuration unchanged; the invariant is
maintained. -/
theorem deepcopy_isolation : ∀ (ops : List COp) (s s2 : RunState),
    RunInv s → runOps s ops = some s2 →
    s.cfgs <+: s2.cfgs ∧
    (∀ p ∈ s.cfgs, ∀ fuel, readConfig fuel s2.heap p = readConfig fuel s.heap p) ∧
    RunInv s2 := by
  intro ops
  induction ops with
  | nil =>
    intro s s2 hInv hE
    simp only [runOps, Option.some.injEq] at hE
    subst hE
    exact ⟨List.prefix_rfl, fun p hp fuel => rfl, hInv⟩
  | cons op rest ih =>
    intro s s2 hInv hE
    simp only [runOps] at hE
    cases hO : execOp s op with
    | none => rw [hO] at hE; simp at hE
    | some s1 =>
      rw [hO] at hE
      obtain ⟨hpre1, hread1, hInv1⟩ := execOp_preserves s op s1 hInv hO
      obtain ⟨hpre2, hread2, hInv2⟩ := ih s1 s2 hInv1 hE
      refine ⟨hpre1.trans hpre2, ?_, hInv2⟩
      intro p hp fuel
      rw [hread2 p (hpre1.subset hp) fuel, hread1 p hp fuel]

/-- The state after `cfg = m.init_config()` satisfies the run
invariant. -/
lemma init_inv : ∀ (fuel : Nat) (es : List (String × Config)) (s0 : RunState),
    initState fuel es = some s0 → RunInv s0 := by
  intro fuel es s0 hI
  simp only [initState] at hI
  cases hA : allocConfig fuel emptyHeap (Config.dict es) with
  | none => rw [hA] at hI; simp at hI
  | some pv =>
    obtain ⟨h, v⟩ := pv
    rw [hA] at hI
    cases v with
    | prim s => simp at hI
    | ref a =>
      dsimp only at hI
      simp only [Option.some.injEq] at hI
      subst hI
      obtain ⟨hle, hold, habove, hvin, hfresh⟩ := allocConfig_props _ _ _ _ _ hA
      have hce : Closed emptyHeap := by
        intro a2 d hd; simp [emptyHeap] at hd
      refine ⟨closed_of_allocVProps hce ⟨hle, hold, habove, hvin, hfresh⟩, hvin.2, ?_⟩
      intro p hp
      simp at hp

/-! ### Counting appends and batch calls -/

/-- Discriminator for `cfgs.append(copy.deepcopy(cfg))`. -/
def isAppendCfg : COp → Bool
  | COp.appendCfg => true
  | _ => false

/-- Discriminator for `labels.append(...)`. -/
def isAppendLabel : COp → Bool
  | COp.appendLabel _ => true
  | _ => false

/-- Discriminator for `m.run_batch(...)`. -/
def isRunBatch : COp → Bool
  | COp.runBatch => true
  | _ => false

lemma execOp_effects : ∀ (s : RunState) (op : COp) (s2 : RunState),
    execOp s op = some s2 →
    s2.cfgs.length = s.cfgs.length + (if isAppendCfg op then 1 else 0) ∧
    s2.labels.length = s.labels.length + (if isAppendLabel op then 1 else 0) ∧
    s2.batchCalls
      = s.batchCalls ++ (if isRunBatch op then [(s.cfgs, s.labels)] else []) := by
  intro s op s2 hE
  cases op with
  | setField path lit =>
    simp only [execOp] at hE
    cases hA : allocConfig (s.heap.next + 1) s.heap lit with
    | none => rw [hA] at hE; simp at hE
    | some pv =>
      obtain ⟨h1, v⟩ := pv
      rw [hA] at hE
      dsimp only at hE
      cases hS : setIn h1 s.cfgRoot path v with
      | none => rw [hS] at hE; simp at hE
      | some h2 =>
        rw [hS] at hE
        simp only [Option.some.injEq] at hE
        subst hE
        simp [isAppendCfg, isAppendLabel, isRunBatch]
  | appendCfg =>
    simp only [execOp] at hE
    cases hRC : readConfig (s.heap.next + 1) s.heap (PyVal.ref s.cfgRoot) with
    | none => rw [hRC] at hE; simp at hE
    | some c =>
      rw [hRC] at hE
      dsimp only at hE
      cases hA : allocConfig (s.heap.next + 1) s.heap c with
      | none => rw [hA] at hE; simp at hE
      | some pv =>
        obtain ⟨h1, v⟩ := pv
        rw [hA] at hE
        simp only [Option.some.injEq] at hE
        subst hE
        simp [isAppendCfg, isAppendLabel, isRunBatch]
  | appendLabel str =>
    simp only [execOp, Option.some.injEq] at hE
    subst hE
    simp [isAppendCfg, isAppendLabel, isRunBatch]
  | runBatch =>
    simp only [execOp, Option.some.injEq] at hE
    subst hE
    simp [isAppendCfg, isAppendLabel, isRunBatch]

lemma runOps_lengths : ∀ (ops : List COp) (s s2 : RunState),
    runOps s ops = some s2 →
    s2.cfgs.length = s.cfgs.length + ops.countP isAppendCfg ∧
    s2.labels.length = s.labels.length + ops.countP isAppendLabel := by
  intro ops
  induction ops with
  | nil =>
    intro s s2 hE
    simp only [runOps, Option.some.injEq] at hE
    subst hE
    simp
  | cons op rest ih =>
    intro s s2 hE
    simp only [runOps] at hE
    cases hO : execOp s op with
    | none => rw [hO] at hE; simp at hE
    | some s1 =>
      rw [hO] at hE
      obtain ⟨hcl, hll, -⟩ := execOp_effects s op s1 hO
      obtain ⟨hcl2, hll2⟩ := ih s1 s2 hE
      rw [List.countP_cons, List.countP_cons]
      constructor <;> omega

lemma runOps_no_batch : ∀ (ops : List COp) (s s2 : RunState),
    ops.countP isRunBatch = 0 → runOps s ops = some s2 →
    s2.batchCalls = s.batchCalls := by
  intro ops
  induction ops with
  | nil =>
    intro s s2 _ hE
    simp only [runOps, Option.some.injEq] at hE
    subst hE
    rfl
  | cons op rest ih =>
    intro s s2 hcount hE
    rw [List.countP_cons] at hcount
    have hop : isRunBatch op = false := by
      cases hb : isRunBatch op with
      | false => rfl
      | true =>
        rw [hb] at hcount
        simp at hcount
    have hrest : rest.countP isRunBatch = 0 := by
      rw [hop] at hcount; simpa using hcount
    simp only [runOps] at hE
    cases hO : execOp s op with
    | none => rw [hO] at hE; simp at hE
    | some s1 =>
      rw [hO] at hE
      obtain ⟨-, -, hbc⟩ := execOp_effects s op s1 hO
      rw [ih s1 s2 hrest hE, hbc, hop]
      simp

lemma runOps_append : ∀ (l1 l2 : List COp) (s : RunState),
    runOps s (l1 ++ l2) = (runOps s l1).bind (fun s1 => runOps s1 l2) := by
  intro l1
  induction l1 with
  | nil => intro l2 s; simp [runOps]
  | cons op rest ih =>
    intro l2 s
    simp only [List.cons_append, runOps]
    cases hO : execOp s op with
    | none => simp
    | some s1 => simpa using ih l2 s1

lemma runOps_final_batch : ∀ (body : List COp) (s s2 : RunState),
    body.countP isRunBatch = 0 → s.batchCalls = [] →
    runOps s (body ++ [COp.runBatch]) = some s2 →
    s2.batchCalls = [(s2.cfgs, s2.labels)] := by
  intro body s s2 hcount hbc hE
  rw [runOps_append] at hE
  cases hB : runOps s body with
  | none => rw [hB] at hE; simp at hE
  | some s1 =>
    rw [hB] at hE
    simp only [Option.some_bind] at hE
    simp only [runOps, execOp, Option.some.injEq] at hE
    subst hE
    have hs1 : s1.batchCalls = [] := by
      rw [runOps_no_batch body s s1 hcount hB, hbc]
    simp [hs1]

/-! ### The embedded run notebooks

The configuration cells of the two run notebooks as operation lists.
Scalar values (strings, numbers, booleans) are carried as their
literal text; the identical setup cell shared verbatim by both
notebooks is the single definition `commonSetup`, and the repeated
KC04 scheme headers are `kc04MyHeader`/`kc04KomegaHeader`.  The
`for e6 in e6list` / `for c4 in c4list` loops are unrolled by mapping
over the value lists. -/

/-- The setup cell (`cfg['title'] = ...` through the equation of
state), identical in `run_Entrainment.ipynb` and
`run_Entrainment-KC04.ipynb`. -/
def commonSetup : List COp :=
  [COp.setField ["title"] (Config.prim "Shear-driven Entrainment"),
   COp.setField ["location", "name"] (Config.prim "equator"),
   COp.setField ["location", "latitude"] (Config.prim "0.0"),
   COp.setField ["location", "longitude"] (Config.prim "0.0"),
   COp.setField ["location", "depth"] (Config.prim "30.0"),
   COp.setField ["time", "start"] (Config.prim "2005-01-01 00:00:00"),
   COp.setField ["time", "stop"] (Config.prim "2005-01-01 06:00:00"),
   COp.setField ["time", "dt"] (Config.prim "10"),
   COp.setField ["grid", "nlev"] (Config.prim "100"),
   COp.setField ["output"] (Config.dict []),
   COp.setField ["output", "gotm_out"] (Config.dict []),
   COp.setField ["output", "gotm_out", "use"] (Config.prim "true"),
   COp.setField ["output", "gotm_out", "title"] (Config.prim "Shear-driven Entrainment"),
   COp.setField ["output", "gotm_out", "time_unit"] (Config.prim "dt"),
   COp.setField ["output", "gotm_out", "time_step"] (Config.prim "90"),
   COp.setField ["output", "gotm_out", "variables"] (Config.dict [("0", Config.dict [])]),
   COp.setField ["output", "gotm_out", "variables", "0", "source"] (Config.prim "*"),
   COp.setField ["output", "gotm_out", "k1_stop"] (Config.prim "101"),
   COp.setField ["output", "gotm_out", "k_stop"] (Config.prim "100"),
   COp.setField ["temperature", "method"] (Config.prim "buoyancy"),
   COp.setField ["temperature", "two_layer", "t_s"] (Config.prim "20.0"),
   COp.setField ["temperature", "NN"] (Config.prim "1e-4"),
   COp.setField ["salinity", "method"] (Config.prim "constant"),
   COp.setField ["salinity", "constant_value"] (Config.prim "20.0"),
   COp.setField ["surface", "fluxes", "method"] (Config.prim "off"),
   COp.setField ["surface", "fluxes", "heat", "method"] (Config.prim "constant"),
   COp.setField ["surface", "fluxes", "heat", "constant_value"] (Config.prim "-1.0e-12"),
   COp.setField ["surface", "fluxes", "tx", "method"] (Config.prim "constant"),
   COp.setField ["surface", "fluxes", "tx", "constant_value"] (Config.prim "1.027e-1"),
   COp.setField ["surface", "fluxes", "ty", "method"] (Config.prim "constant"),
   COp.setField ["surface", "fluxes", "ty", "constant_value"] (Config.prim "0.0"),
   COp.setField ["waves", "stokes_drift", "us", "method"] (Config.prim "exponential"),
   COp.setField ["waves", "stokes_drift", "vs", "method"] (Config.prim "exponential"),
   COp.setField ["waves", "stokes_drift", "dusdz", "method"] (Config.prim "us"),
   COp.setField ["waves", "stokes_drift", "dvsdz", "method"] (Config.prim "vs"),
   COp.setField ["waves", "stokes_drift", "exponential", "us0", "method"] (Config.prim "constant"),
   COp.setField ["waves", "stokes_drift", "exponential", "us0", "constant_value"] (Config.prim "0.2"),
   COp.setField ["waves", "stokes_drift", "exponential", "vs0", "method"] (Config.prim "constant"),
   COp.setField ["waves", "stokes_drift", "exponential", "vs0", "constant_value"] (Config.prim "0.0"),
   COp.setField ["waves", "stokes_drift", "exponential", "ds", "method"] (Config.prim "constant"),
   COp.setField ["waves", "stokes_drift", "exponential", "ds", "constant_value"] (Config.prim "5.0"),
   COp.setField ["eq_state", "method"] (Config.prim "unesco"),
   COp.setField ["eq_state", "form"] (Config.prim "full-pot")]

/-- The body of `run_Entrainment.ipynb` after the setup: the four
scheme variants of the GLS/KPP cell, in source order. -/
def runEntrainmentBody : List COp :=
  commonSetup ++
  [COp.setField ["turbulence", "turb_method"] (Config.prim "second_order"),
   COp.setField ["turbulence", "tke_method"] (Config.prim "tke"),
   COp.setField ["turbulence", "len_scale_method"] (Config.prim "gls"),
   COp.setField ["turbulence", "scnd", "method"] (Config.prim "weak_eq_kb_eq"),
   COp.setField ["turbulence", "scnd", "scnd_coeff"] (Config.prim "canuto-a"),
   COp.setField ["turbulence", "turb_param", "length_lim"] (Config.prim "false"),
   COp.setField ["turbulence", "turb_param", "compute_c3"] (Config.prim "true"),
   COp.setField ["turbulence", "turb_param", "Ri_st"] (Config.prim "0.2"),
   COp.setField ["turbulence", "generic", "gen_m"] (Config.prim "1.5"),
   COp.setField ["turbulence", "generic", "gen_n"] (Config.prim "-1.0"),
   COp.setField ["turbulence", "generic", "gen_p"] (Config.prim "3.0"),
   COp.setField ["turbulence", "generic", "cpsi1"] (Config.prim "1.44"),
   COp.setField ["turbulence", "generic", "cpsi2"] (Config.prim "1.92"),
   COp.setField ["turbulence", "generic", "cpsi3minus"] (Config.prim "-0.63"),
   COp.setField ["turbulence", "generic", "cpsi3plus"] (Config.prim "1.0"),
   COp.setField ["turbulence", "generic", "sig_kpsi"] (Config.prim "1.0"),
   COp.setField ["turbulence", "generic", "sig_psi"] (Config.prim "1.3"),
   COp.appendCfg, COp.appendLabel "GLS-C01A",
   COp.setField ["turbulence", "turb_method"] (Config.prim "cvmix"),
   COp.setField ["cvmix", "surface_layer", "kpp", "langmuir_method"] (Config.prim "none"),
   COp.appendCfg, COp.appendLabel "KPP-CVMix",
   COp.setField ["cvmix", "surface_layer", "kpp", "langmuir_method"] (Config.prim "lwf16"),
   COp.appendCfg, COp.appendLabel "KPPLT-VR12",
   COp.setField ["cvmix", "surface_layer", "kpp", "langmuir_method"] (Config.prim "lf17"),
   COp.appendCfg, COp.appendLabel "KPPLT-LF17"]

/-- The operations of `run_Entrainment.ipynb`: setup, the four scheme
variants, then the single `m.run_batch` call. -/
def runEntrainmentOps : List COp :=
  runEntrainmentBody ++ [COp.runBatch]

/-- The repeated KC04-MY scheme header of `run_Entrainment-KC04.ipynb`. -/
def kc04MyHeader : List COp :=
  [COp.setField ["turbulence", "turb_method"] (Config.prim "second_order"),
   COp.setField ["turbulence", "tke_method"] (Config.prim "mellor_yamada"),
   COp.setField ["turbulence", "len_scale_method"] (Config.prim "mellor_yamada"),
   COp.setField ["turbulence", "scnd", "method"] (Config.prim "quasi_eq"),
   COp.setField ["turbulence", "scnd", "scnd_coeff"] (Config.prim "kantha_clayson"),
   COp.setField ["turbulence", "turb_param", "length_lim"] (Config.prim "false"),
   COp.setField ["turbulence", "turb_param", "compute_c3"] (Config.prim "true"),
   COp.setField ["turbulence", "turb_param", "Ri_st"] (Config.prim "0.2"),
   COp.setField ["turbulence", "turb_param", "compute_kappa"] (Config.prim "true")]

/-- The repeated KC04 k-omega scheme header of
`run_Entrainment-KC04.ipynb` (the MY header plus the generic length
scale coefficients). -/
def kc04KomegaHeader : List COp :=
  [COp.setField ["turbulence", "turb_method"] (Config.prim "second_order"),
   COp.setField ["turbulence", "tke_method"] (Config.prim "tke"),
   COp.setField ["turbulence", "len_scale_method"] (Config.prim "gls"),
   COp.setField ["turbulence", "scnd", "method"] (Config.prim "quasi_eq"),
   COp.setField ["turbulence", "scnd", "scnd_coeff"] (Config.prim "kantha_clayson"),
   COp.setField ["turbulence", "turb_param", "length_lim"] (Config.prim "false"),
   COp.setField ["turbulence", "turb_param", "compute_c3"] (Config.prim "true"),
   COp.setField ["turbulence", "turb_param", "Ri_st"] (Config.prim "0.2"),
   COp.setField ["turbulence", "turb_param", "compute_kappa"] (Config.prim "true"),
   COp.setField ["turbulence", "generic", "gen_m"] (Config.prim "0.5"),
   COp.setField ["turbulence", "generic", "gen_n"] (Config.prim "-1.0"),
   COp.setField ["turbulence", "generic", "gen_p"] (Config.prim "-1.0"),
   COp.setField ["turbulence", "generic", "cpsi1"] (Config.prim "0.55"),
   COp.setField ["turbulence", "generic", "cpsi2"] (Config.prim "0.833"),
   COp.setField ["turbulence", "generic", "cpsi3minus"] (Config.prim "0.0"),
   COp.setField ["turbulence", "generic", "cpsi3plus"] (Config.prim "0.0"),
   COp.setField ["turbulence", "generic", "sig_kpsi"] (Config.prim "2.0"),
   COp.setField ["turbulence", "generic", "sig_psi"] (Config.prim "2.0"),
   COp.setField ["turbulence", "generic", "gen_d"] (Config.prim "-1.087"),
   COp.setField ["turbulence", "generic", "gen_alpha"] (Config.prim "-4.97"),
   COp.setField ["turbulence", "generic", "gen_l"] (Config.prim "0.09")]

/-- The body of `run_Entrainment-KC04.ipynb` after the setup: the MY
family over `e6list`, the k-omega family over `c4list`, then the two
no-Stokes variants. -/
def kc04Body : List COp :=
  commonSetup
  ++ kc04MyHeader
  ++ (e6listTenths.map (fun v =>
       [COp.setField ["turbulence", "my", "e6"] (Config.prim (fmtFixed1 v)),
        COp.appendCfg,
        COp.appendLabel ("KC04-MY-e6-" ++ fmtFixed1 v)])).flatten
  ++ kc04KomegaHeader
  ++ (c4listThousandths.map (fun v =>
       [COp.setField ["turbulence", "generic", "cpsi4"] (Config.prim (fmtFixed3 v)),
        COp.appendCfg,
        COp.appendLabel ("KC04-k-omega-c4-" ++ fmtFixed3 v)])).flatten
  ++ [COp.setField ["waves", "stokes_drift", "us", "method"] (Config.prim "off"),
      COp.setField ["waves", "stokes_drift", "vs", "method"] (Config.prim "off"),
      COp.setField ["waves", "stokes_drift", "dusdz", "method"] (Config.prim "off"),
      COp.setField ["waves", "stokes_drift", "dvsdz", "method"] (Config.prim "off")]
  ++ kc04MyHeader
  ++ [COp.setField ["turbulence", "my", "e6"] (Config.prim "4.0"),
      COp.appendCfg, COp.appendLabel "KC04-MY-NS"]
  ++ kc04KomegaHeader
  ++ [COp.setField ["turbulence", "generic", "cpsi4"] (Config.prim "0.15"),
      COp.appendCfg, COp.appendLabel "KC04-k-omega-NS"]

/-- The operations of `run_Entrainment-KC04.ipynb`: setup, the ten
scheme variants, then the single `m.run_batch` call. -/
def kc04RunOps : List COp :=
  kc04Body ++ [COp.runBatch]

lemma init_empty : ∀ (fuel : Nat) (es : List (String × Config)) (s0 : RunState),
    initState fuel es = some s0 →
    s0.cfgs = [] ∧ s0.labels = [] ∧ s0.batchCalls = [] := by
  intro fuel es s0 hI
  simp only [initState] at hI
  cases hA : allocConfig fuel emptyHeap (Config.dict es) with
  | none => rw [hA] at hI; simp at hI
  | some pv =>
    obtain ⟨h, v⟩ := pv
    rw [hA] at hI
    cases v with
    | prim s => simp at hI
    | ref a =>
      dsimp only at hI
      simp only [Option.some.injEq] at hI
      subst hI
      exact ⟨rfl, rfl, rfl⟩

/-- C6: configurations and labels are appended in lockstep — each run
notebook performs equally many appends to `cfgs` and to `labels` (4
and 4, resp. 10 and 10), so at the `run_batch` call site the two lists
have equal length. -/
theorem cfgs_labels_lockstep :
    (runEntrainmentOps.countP isAppendCfg = 4 ∧
     runEntrainmentOps.countP isAppendLabel = 4 ∧
     kc04RunOps.countP isAppendCfg = 10 ∧
     kc04RunOps.countP isAppendLabel = 10) ∧
    (∀ (fuel : Nat) (es : List (String × Config)) (s0 s2 : RunState),
      initState fuel es = some s0 → runOps s0 runEntrainmentOps = some s2 →
      s2.cfgs.length = 4 ∧ s2.labels.length = 4) ∧
    (∀ (fuel : Nat) (es : List (String × Config)) (s0 s2 : RunState),
      initState fuel es = some s0 → runOps s0 kc04RunOps = some s2 →
      s2.cfgs.length = 10 ∧ s2.labels.length = 10) := by
  refine ⟨by decide, ?_, ?_⟩
  · intro fuel es s0 s2 hI hR
    obtain ⟨hc0, hl0, -⟩ := init_empty fuel es s0 hI
    obtain ⟨hcl, hll⟩ := runOps_lengths _ _ _ hR
    have e1 : runEntrainmentOps.countP isAppendCfg = 4 := by decide
    have e2 : runEntrainmentOps.countP isAppendLabel = 4 := by decide
    have hc0l : s0.cfgs.length = 0 := by rw [hc0]; rfl
    have hl0l : s0.labels.length = 0 := by rw [hl0]; rfl
    constructor <;> omega
  · intro fuel es s0 s2 hI hR
    obtain ⟨hc0, hl0, -⟩ := init_empty fuel es s0 hI
    obtain ⟨hcl, hll⟩ := runOps_lengths _ _ _ hR
    have e1 : kc04RunOps.countP isAppendCfg = 10 := by decide
    have e2 : kc04RunOps.countP isAppendLabel = 10 := by decide
    have hc0l : s0.cfgs.length = 0 := by rw [hc0]; rfl
    have hl0l : s0.labels.length = 0 := by rw [hl0]; rfl
    constructor <;> omega

/-- C5: each run notebook calls `run_batch` exactly once (its operation
list holds exactly one batch-call operation and no other
simulator-invoking operation), the single call receives the full final
`cfgs` and `labels` lists, and `cfgs` holds exactly one entry per
append operation. -/
theorem run_batch_once :
    (runEntrainmentOps.countP isRunBatch = 1 ∧
     kc04RunOps.countP isRunBatch = 1) ∧
    (∀ (fuel : Nat) (es : List (String × Config)) (s0 s2 : RunState),
      initState fuel es = some s0 → runOps s0 runEntrainmentOps = some s2 →
      s2.batchCalls = [(s2.cfgs, s2.labels)] ∧
      s2.cfgs.length = runEntrainmentOps.countP isAppendCfg) ∧
    (∀ (fuel : Nat) (es : List (String × Config)) (s0 s2 : RunState),
      initState fuel es = some s0 → runOps s0 kc04RunOps = some s2 →
      s2.batchCalls = [(s2.cfgs, s2.labels)] ∧
      s2.cfgs.length = kc04RunOps.countP isAppendCfg) := by
  refine ⟨by decide, ?_, ?_⟩
  · intro fuel es s0 s2 hI hR
    obtain ⟨hc0, -, hb0⟩ := init_empty fuel es s0 hI
    have hR2 : runOps s0 (runEntrainmentBody ++ [COp.runBatch]) = some s2 := hR
    refine ⟨runOps_final_batch runEntrainmentBody s0 s2 (by decide) hb0 hR2, ?_⟩
    obtain ⟨hcl, -⟩ := runOps_lengths _ _ _ hR
    have hc0l : s0.cfgs.length = 0 := by rw [hc0]; rfl
    omega
  · intro fuel es s0 s2 hI hR
    obtain ⟨hc0, -, hb0⟩ := init_empty fuel es s0 hI
    have hR2 : runOps s0 (kc04Body ++ [COp.runBatch]) = some s2 := hR
    refine ⟨runOps_final_batch kc04Body s0 s2 (by decide) hb0 hR2, ?_⟩
    obtain ⟨hcl, -⟩ := runOps_lengths _ _ _ hR
    have hc0l : s0.cfgs.length = 0 := by rw [hc0]; rfl
    omega

/-! ### Concrete runs

A schema for `m.init_config()` holding the intermediate dictionaries
the notebooks write through, and concrete executions of the embedded
programs on it. -/

/-- The nested dictionaries of the initial GOTM configuration that the
notebooks' assignment paths traverse. -/
def gotmSchema : List (String × Config) :=
  [("location", Config.dict []),
   ("time", Config.dict []),
   ("grid", Config.dict []),
   ("temperature", Config.dict [("two_layer", Config.dict [])]),
   ("salinity", Config.dict []),
   ("surface", Config.dict [("fluxes", Config.dict
      [("heat", Config.dict []), ("tx", Config.dict []), ("ty", Config.dict [])])]),
   ("waves", Config.dict [("stokes_drift", Config.dict
      [("us", Config.dict []), ("vs", Config.dict []),
       ("dusdz", Config.dict []), ("dvsdz", Config.dict []),
       ("exponential", Config.dict
         [("us0", Config.dict []), ("vs0", Config.dict []),
          ("ds", Config.dict [])])])]),
   ("eq_state", Config.dict []),
   ("turbulence", Config.dict
      [("scnd", Config.dict []), ("turb_param", Config.dict []),
       ("generic", Config.dict []), ("my", Config.dict [])]),
   ("cvmix", Config.dict [("surface_layer", Config.dict [("kpp", Config.dict [])])])]

/-- The initial state on the schema. -/
def schemaInit : Option RunState := initState 10 gotmSchema

set_option maxRecDepth 100000 in
lemma schemaInit_isSome : schemaInit.isSome = true := by decide

/-- The state after `cfg = m.init_config()` on the schema. -/
def schemaS0 : RunState := schemaInit.get schemaInit_isSome

/-- The full `run_Entrainment.ipynb` program executed on the schema. -/
def entrainRun : Option RunState := runOps schemaS0 runEntrainmentOps

set_option maxRecDepth 100000 in
lemma entrainRun_isSome : entrainRun.isSome = true := by decide

/-- The final state of `run_Entrainment.ipynb` on the schema. -/
def entrainS2 : RunState := entrainRun.get entrainRun_isSome

/-- The full `run_Entrainment-KC04.ipynb` program executed on the
schema. -/
def kc04Run : Option RunState := runOps schemaS0 kc04RunOps

set_option maxRecDepth 100000 in
lemma kc04Run_isSome : kc04Run.isSome = true := by decide

/-- The final state of `run_Entrainment-KC04.ipynb` on the schema. -/
def kc04S2 : RunState := kc04Run.get kc04Run_isSome

/-- Witness for C5 on the concrete `run_Entrainment.ipynb` run. -/
theorem run_batch_once_witness :
    initState 10 gotmSchema = some schemaS0 ∧
    runOps schemaS0 runEntrainmentOps = some entrainS2 ∧
    (entrainS2.batchCalls = [(entrainS2.cfgs, entrainS2.labels)] ∧
     entrainS2.cfgs.length = runEntrainmentOps.countP isAppendCfg) :=
  ⟨(Option.some_get schemaInit_isSome).symm,
   (Option.some_get entrainRun_isSome).symm,
   run_batch_once.2.1 10 gotmSchema schemaS0 entrainS2
     (Option.some_get schemaInit_isSome).symm
     (Option.some_get entrainRun_isSome).symm⟩

/-- Witness for C6 on the concrete `run_Entrainment-KC04.ipynb` run. -/
theorem cfgs_labels_lockstep_witness :
    initState 10 gotmSchema = some schemaS0 ∧
    runOps schemaS0 kc04RunOps = some kc04S2 ∧
    (kc04S2.cfgs.length = 10 ∧ kc04S2.labels.length = 10) :=
  ⟨(Option.some_get schemaInit_isSome).symm,
   (Option.some_get kc04Run_isSome).symm,
   cfgs_labels_lockstep.2.2 10 gotmSchema schemaS0 kc04S2
     (Option.some_get schemaInit_isSome).symm
     (Option.some_get kc04Run_isSome).symm⟩

/-- A small configuration for exercising the isolation theorem. -/
def demoCfgEs : List (String × Config) :=
  [("a", Config.prim "0"), ("sub", Config.dict [("b", Config.prim "1")])]

/-- Initial demo state. -/
def demoInitRun : Option RunState := initState 4 demoCfgEs

lemma demoInitRun_isSome : demoInitRun.isSome = true := by decide

/-- Demo state after initialization. -/
def demoS0 : RunState := demoInitRun.get demoInitRun_isSome

/-- First demo phase: one mutation, then append a deep copy. -/
def demoOps1 : List COp :=
  [COp.setField ["sub", "b"] (Config.prim "2"), COp.appendCfg,
   COp.appendLabel "first"]

/-- The run of the first demo phase. -/
def demoRun1 : Option RunState := runOps demoS0 demoOps1

lemma demoRun1_isSome : demoRun1.isSome = true := by decide

/-- Demo state holding one appended copy. -/
def demoS1 : RunState := demoRun1.get demoRun1_isSome

/-- Second demo phase: mutate nested and top-level fields of `cfg`
again, then append another copy. -/
def demoOps2 : List COp :=
  [COp.setField ["sub", "b"] (Config.prim "3"),
   COp.setField ["a"] (Config.prim "9"), COp.appendCfg,
   COp.appendLabel "second"]

/-- The run of the second demo phase. -/
def demoRun2 : Option RunState := runOps demoS1 demoOps2

lemma demoRun2_isSome : demoRun2.isSome = true := by decide

/-- Demo final state. -/
def demoS2 : RunState := demoRun2.get demoRun2_isSome

/-- Witness for C3: on the demo run, the copy appended in the first
phase is unchanged by the second phase's mutations of `cfg`. -/
theorem deepcopy_isolation_witness :
    RunInv demoS1 ∧ runOps demoS1 demoOps2 = some demoS2 ∧
    (demoS1.cfgs <+: demoS2.cfgs ∧
     (∀ p ∈ demoS1.cfgs, ∀ fuel,
        readConfig fuel demoS2.heap p = readConfig fuel demoS1.heap p) ∧
     RunInv demoS2) := by
  have h0 : RunInv demoS0 :=
    init_inv 4 demoCfgEs demoS0 (Option.some_get demoInitRun_isSome).symm
  have h1 := deepcopy_isolation demoOps1 demoS0 demoS1 h0
    (Option.some_get demoRun1_isSome).symm
  have h2 := deepcopy_isolation demoOps2 demoS1 demoS2 h1.2.2
    (Option.some_get demoRun2_isSome).symm
  exact ⟨h1.2.2, (Option.some_get demoRun2_isSome).symm, h2⟩
